import Mathlib

/-!
Verification of the core of `cfn-hint.py`: the hint-parsing and
line-rewriting engine (`parse_hint`, `replace_line`, `process_content`).

Strings are modelled as `List Char`.  Python's `str.splitlines(keepends=True)`,
`str.split`, `str.strip` and a large fragment of the `re` module (character
literals and escapes, classes, alternation, groups, greedy / lazy /
possessive quantifiers including counted repetition, backreferences,
position assertions, and `re.sub`'s template compilation and must-advance
scanning loop) are embedded as executable Lean functions, checked against
CPython 3.11 (`re/_parser.py`, `_sre`).  Fallible Python operations are
modelled with `Except`, distinguishing the exception kinds relevant to the
program's handlers: `re.error` (re-raised by `replace_line` as the
`ValueError` that `process_content` catches) versus the `IndexError` and
`OverflowError` that `re` can also raise and that those handlers do not
catch; the `try`/`except` structure of `process_content` is mirrored by
explicit `match`es on those results.  Where the model is an approximation
(ASCII word/digit classes, the pattern constructs listed at `RE` as outside
the fragment) the divergence is stated at the definition.
-/

deriving instance DecidableEq for Except

namespace CfnHint

/-- `listStarts n s` is true when `n` is an initial segment of `s`. -/
def listStarts : List Char → List Char → Bool
  | [], _ => true
  | _ :: _, [] => false
  | a :: as, b :: bs => a = b && listStarts as bs

/-- Split `s` at the first occurrence of the substring `needle`
(Python `s.split(needle, 1)` when it produces two parts).
Returns the text before and after the first occurrence, or `none`. -/
def splitOnceSub (needle : List Char) : List Char → Option (List Char × List Char)
  | [] => if listStarts needle [] then some ([], []) else none
  | c :: rest =>
    if listStarts needle (c :: rest) then some ([], (c :: rest).drop needle.length)
    else (splitOnceSub needle rest).map (fun p => (c :: p.1, p.2))

/-- Python's `needle in s` substring test. -/
def containsSub (needle s : List Char) : Bool := (splitOnceSub needle s).isSome

/-- Split `s` at the first occurrence of the character `sep`, if any. -/
def chopAtChar (sep : Char) : List Char → Option (List Char × List Char)
  | [] => none
  | c :: rest =>
    if c = sep then some ([], rest)
    else (chopAtChar sep rest).map (fun p => (c :: p.1, p.2))

/-- Python `s.split(sep, maxsplit)` for a single-character separator. -/
def pySplitMax (sep : Char) : Nat → List Char → List (List Char)
  | 0, s => [s]
  | m + 1, s =>
    match chopAtChar sep s with
    | none => [s]
    | some p => p.1 :: pySplitMax sep m p.2

/-- Characters stripped by Python `str.strip()` (`str.isspace()`). -/
def pyIsSpace (c : Char) : Bool :=
  c = ' ' || c = '\t' || c = '\n' || c = '\r' || c = '\x0b' || c = '\x0c' ||
  c = '\x1c' || c = '\x1d' || c = '\x1e' || c = '\x1f' || c = '\x85' || c = '\xa0' ||
  c = '\u1680' || ('\u2000' ≤ c && c ≤ '\u200a') || c = '\u2028' || c = '\u2029' ||
  c = '\u202f' || c = '\u205f' || c = '\u3000'

/-- Python `s.strip()`. -/
def pyStrip (s : List Char) : List Char :=
  ((s.dropWhile pyIsSpace).reverse.dropWhile pyIsSpace).reverse

/-- Line-break characters of Python `str.splitlines` (besides `"\r\n"`,
which is handled as a single break). -/
def isLB (c : Char) : Bool :=
  c = '\n' || c = '\r' || c = '\x0b' || c = '\x0c' ||
  c = '\x1c' || c = '\x1d' || c = '\x1e' || c = '\x85' || c = '\u2028' || c = '\u2029'

/-- Worker for `splitlinesKeepends`; `cur` is the reversed current line.
`"\r\n"` is a single line break; any other break character ends a line by
itself; a line at end of input is emitted without a terminator.  `fuel`
bounds the recursion depth; each step consumes one input character, so the
`s.length + 1` supplied by `splitlinesKeepends` never reaches the
fallback. -/
def slGo : Nat → List Char → List Char → List (List Char)
  | 0, cur, s => if cur = [] && s = [] then [] else [cur.reverse ++ s]
  | _ + 1, cur, [] => if cur = [] then [] else [cur.reverse]
  | fuel + 1, cur, c :: rest =>
    if c = '\r' && rest.head? = some '\n' then
      (cur.reverse ++ ['\r', '\n']) :: slGo fuel [] rest.tail
    else if isLB c then (cur.reverse ++ [c]) :: slGo fuel [] rest
    else slGo fuel (c :: cur) rest

/-- Python `content.splitlines(keepends=True)` (cfn-hint.py line 69). -/
def splitlinesKeepends (s : List Char) : List (List Char) := slGo (s.length + 1) [] s

/-- Concatenation of the images of `f` over `l`. -/
def joinMap (f : α → List β) (l : List α) : List β := (l.map f).flatten

/-- The literal marker recognised by `process_content` (cfn-hint.py line 72):
a line is dispatched to hint parsing iff it contains this substring. -/
def hintMarker : List Char := "# cfn-hint: replace:".toList

/-- `"# cfn-hint: replace:" in line` (cfn-hint.py line 72). -/
def isHintLine (line : List Char) : Bool := containsSub hintMarker line

/-- The delimiter `" with: "` used by `parse_hint` (cfn-hint.py line 44). -/
def wDelim : List Char := " with: ".toList

/-- `hint_line.split(':', 2)[-1]` — the final part of splitting the line on
`':'` with at most two splits (cfn-hint.py line 42). -/
def lastColonChunk (line : List Char) : List Char :=
  (pySplitMax ':' 2 line).getLastD []

/-- `parse_hint` (cfn-hint.py lines 35–50): takes the text after the second
colon, strips it, and splits it on the first `" with: "` into
`(pattern, replacement)`; raises `ValueError` (modelled `Except.error ()`)
when the delimiter is absent. -/
def parse_hint (hint_line : List Char) : Except Unit (List Char × List Char) :=
  match splitOnceSub wDelim (pyStrip (lastColonChunk hint_line)) with
  | some p => Except.ok p
  | none => Except.error ()

/-- Exception kinds relevant to the error handling of `cfn-hint.py`:
`replace_line` raises `ValueError` for any `re.error` (cfn-hint.py lines
59–60) and `process_content` catches exactly `ValueError` (lines 78, 93);
CPython's `re` can also raise `IndexError` (an unknown named-group
reference `\g<name>` in a replacement template, `re/_parser.py`
`parse_template`) and `OverflowError` (a repetition count of at least
4294967295, `re/_parser.py` `_parse`), neither of which those handlers
catch. -/
inductive PyExc : Type where
  | valueError : PyExc
  | indexError : PyExc
  | overflowError : PyExc
deriving DecidableEq

/-- Failure kinds of `re.compile`: `reErr` is `re.error`, `overflow` is the
`OverflowError` raised for repetition counts `>= 4294967295`. -/
inductive CmpErr : Type where
  | reErr : CmpErr
  | overflow : CmpErr
deriving DecidableEq

/-- Failure kinds of template compilation in `re.sub`: `reErr` is
`re.error` (bad escape, invalid numbered group reference), `idxErr` is the
`IndexError` raised by `parse_template` for an unknown named group
`\g<name>`. -/
inductive TErr : Type where
  | reErr : TErr
  | idxErr : TErr
deriving DecidableEq

/-- One member of a character class `[...]`: a literal character, a
codepoint range, or one of the category shorthands `\d \D \s \S \w \W`. -/
inductive ClsItem : Type where
  | ch : Char → ClsItem
  | range : Char → Char → ClsItem
  | dig : ClsItem
  | ndig : ClsItem
  | spc : ClsItem
  | nspc : ClsItem
  | wrd : ClsItem
  | nwrd : ClsItem
deriving DecidableEq

/-- Abstract syntax of the modelled fragment of Python regular expressions:
literals, `.`, character classes, concatenation, alternation, numbered
groups, greedy / lazy / possessive repetition (counted repetition is
expanded into these), numbered backreferences, and the position assertions
`^` / `\A`, `$`, `\Z`, `\b` / `\B`.  Still outside the fragment (patterns
Python accepts but this model rejects as a compile failure): named groups
and other `(?...)` extensions, lookaround, inline flags, `\N{...}` escapes
and comments. -/
inductive RE : Type where
  | eps : RE
  | ch : Char → RE
  | dot : RE
  | cls : Bool → List ClsItem → RE
  | seq : RE → RE → RE
  | alt : RE → RE → RE
  | grp : Nat → RE → RE
  | star : RE → RE
  | starL : RE → RE
  | poss : RE → RE
  | bref : Nat → RE
  | atBegin : RE
  | atEnd : RE
  | atEndStr : RE
  | bound : Bool → RE
deriving DecidableEq

/-- Size of a regex tree, used to bound the matcher's recursion depth. -/
def sizeRE : RE → Nat
  | .eps => 1
  | .ch _ => 1
  | .dot => 1
  | .cls _ _ => 1
  | .seq a b => sizeRE a + sizeRE b + 1
  | .alt a b => sizeRE a + sizeRE b + 1
  | .grp _ a => sizeRE a + 1
  | .star a => sizeRE a + 1
  | .starL a => sizeRE a + 1
  | .poss a => sizeRE a + 1
  | .bref _ => 1
  | .atBegin => 1
  | .atEnd => 1
  | .atEndStr => 1
  | .bound _ => 1

/-- Word character for `\w` and `\b` (ASCII approximation of Python's
unicode word characters: letters, digits and underscore). -/
def isWordCh (c : Char) : Bool := c.isAlphanum || c = '_'

/-- Does a character match one class member? -/
def clsItemMatch (c : Char) : ClsItem → Bool
  | .ch d => c = d
  | .range lo hi => lo ≤ c && c ≤ hi
  | .dig => c.isDigit
  | .ndig => !c.isDigit
  | .spc => pyIsSpace c
  | .nspc => !pyIsSpace c
  | .wrd => isWordCh c
  | .nwrd => !isWordCh c

/-- Does a character match a character class body? -/
def clsMatch (c : Char) (items : List ClsItem) : Bool := items.any (clsItemMatch c)

/-- Captured groups: most recent capture first. -/
abbrev Groups := List (Nat × List Char)

/-- The character immediately before the current position after `chunk` has
additionally been consumed: the last character of `chunk`, or the previous
`prev` when `chunk` is empty. -/
def advPrev (prev : Option Char) (chunk : List Char) : Option Char :=
  match chunk.getLast? with
  | some d => some d
  | none => prev

/-- Backtracking matcher.  `reM fuel r prev s g` returns, in backtracking
priority order (greedy quantifiers longest-first, lazy shortest-first, left
alternative first — Python `re` semantics), the `(rest, groups)` outcomes
of matching `r` at the start of `s`, where `prev` is the character
immediately before this position in the subject (`none` at the start of the
string) — this carries the position information needed by `^`, `\A`, `\b`
and `\B`.  `fuel` bounds recursion depth; an unbounded repetition body must
consume at least one character per iteration, as in CPython's `sre`. -/
def reM : Nat → RE → Option Char → List Char → Groups → List (List Char × Groups)
  | 0, _, _, _, _ => []
  | fuel + 1, re, prev, s, g =>
    match re with
    | .eps => [(s, g)]
    | .ch c =>
      match s with
      | [] => []
      | x :: rest => if x = c then [(rest, g)] else []
    | .dot =>
      match s with
      | [] => []
      | x :: rest => if x = '\n' then [] else [(rest, g)]
    | .cls neg items =>
      match s with
      | [] => []
      | x :: rest => if clsMatch x items ≠ neg then [(rest, g)] else []
    | .seq a b =>
      joinMap (fun p => reM fuel b (advPrev prev (s.take (s.length - p.1.length))) p.1 p.2)
        (reM fuel a prev s g)
    | .alt a b => reM fuel a prev s g ++ reM fuel b prev s g
    | .grp i a =>
      (reM fuel a prev s g).map (fun p => (p.1, (i, s.take (s.length - p.1.length)) :: p.2))
    | .star a =>
      joinMap
        (fun p => reM fuel (.star a) (advPrev prev (s.take (s.length - p.1.length))) p.1 p.2)
        ((reM fuel a prev s g).filter (fun p => decide (p.1.length < s.length))) ++ [(s, g)]
    | .starL a =>
      (s, g) ::
      joinMap
        (fun p => reM fuel (.starL a) (advPrev prev (s.take (s.length - p.1.length))) p.1 p.2)
        ((reM fuel a prev s g).filter (fun p => decide (p.1.length < s.length)))
    | .poss a => (reM fuel a prev s g).take 1
    | .bref n =>
      match g.find? (fun q => q.1 == n) with
      | some q => if listStarts q.2 s then [(s.drop q.2.length, g)] else []
      | none => []
    | .atBegin => match prev with | none => [(s, g)] | some _ => []
    | .atEnd =>
      match s with
      | [] => [(s, g)]
      | [c] => if c = '\n' then [(s, g)] else []
      | _ => []
    | .atEndStr => match s with | [] => [(s, g)] | _ => []
    | .bound word =>
      let w1 := match prev with | some d => isWordCh d | none => false
      let w2 := match s.head? with | some d => isWordCh d | none => false
      if (w1 != w2) = word then [(s, g)] else []

/-- Best (first-in-priority-order) match of `r` at the current position. -/
def matchHere (r : RE) (prev : Option Char) (s : List Char) :
    Option (List Char × Groups) :=
  (reM ((s.length + 2) * (sizeRE r + 2)) r prev s []).head?

/-- Best non-empty match of `r` at the current position (the scanner's
`must_advance` mode, used directly after an empty match). -/
def matchHereNE (r : RE) (prev : Option Char) (s : List Char) :
    Option (List Char × Groups) :=
  ((reM ((s.length + 2) * (sizeRE r + 2)) r prev s []).filter
    (fun p => decide (p.1.length < s.length))).head?

/-- Match at the current position in the mode selected by `adv`: non-empty
matches only when `adv` is set. -/
def mHX (adv : Bool) (r : RE) (prev : Option Char) (s : List Char) :
    Option (List Char × Groups) :=
  if adv then matchHereNE r prev s else matchHere r prev s

/-- One element of a compiled substitution template: a literal character or
a numbered group reference (`0` is the whole match, as for `\g<0>`). -/
inductive TItem : Type where
  | lit : Char → TItem
  | ref : Nat → TItem
deriving DecidableEq

/-- Decimal digit in `'1'`–`'9'`. -/
def isDig19 (c : Char) : Bool := '1' ≤ c && c ≤ '9'

/-- Octal digit. -/
def isOct (c : Char) : Bool := '0' ≤ c && c ≤ '7'

/-- Numeric value of a decimal digit character. -/
def digVal (c : Char) : Nat := c.toNat - '0'.toNat

/-- Numeric value of a hexadecimal digit character. -/
def hexVal (c : Char) : Nat :=
  if c.isDigit then c.toNat - '0'.toNat
  else if 'a' ≤ c && c ≤ 'f' then c.toNat - 'a'.toNat + 10
  else c.toNat - 'A'.toNat + 10

/-- Hexadecimal digit test. -/
def isHex (c : Char) : Bool :=
  c.isDigit || ('a' ≤ c && c ≤ 'f') || ('A' ≤ c && c ≤ 'F')

/-- Numeric value of a digit string. -/
def natOfDigits (l : List Char) : Nat := l.foldl (fun n c => n * 10 + digVal c) 0

/-- ASCII approximation of Python `str.isidentifier`. -/
def isIdent (l : List Char) : Bool :=
  match l with
  | [] => false
  | c :: cs => (c.isAlpha || c = '_') && cs.all (fun d => d.isAlphanum || d = '_')

/-- Python's parsing of a `re.sub` replacement template (CPython
`re/_parser.py` `parse_template`), for a pattern with `ng` capture groups
and no named groups (the modelled pattern fragment defines none):
`\g<number>` and `\1`–`\99` are group references, rejected with `re.error`
when the number exceeds `ng` (`\g<0>` is the whole match); `\g<name>` with
an identifier name raises `IndexError` (unknown group name) — a distinct,
uncaught exception kind; `\0` plus up to two octal digits, and three octal
digits after `\`, are octal character escapes; the letter escapes `\a \b \f
\n \r \t \v` and `\\` denote control characters; any other escaped ASCII
letter is a `bad escape` `re.error`; an escaped non-letter keeps the
backslash.  `fuel` bounds recursion (one unit per consumed character
suffices). -/
def parseTmpl (ng : Nat) : Nat → List Char → Except TErr (List TItem)
  | 0, _ => .error .reErr
  | _ + 1, [] => .ok []
  | fuel + 1, '\\' :: rest =>
    match rest with
    | [] => .error .reErr
    | c :: rest2 =>
      if c = '\\' then (parseTmpl ng fuel rest2).map (fun t => TItem.lit '\\' :: t)
      else if c = 'g' then
        match rest2 with
        | '<' :: rest3 =>
          match chopAtChar '>' rest3 with
          | none => .error .reErr
          | some q =>
            if q.1 = [] then .error .reErr
            else if isIdent q.1 then .error .idxErr
            else if q.1.all Char.isDigit then
              if natOfDigits q.1 ≤ ng then
                (parseTmpl ng fuel q.2).map (fun t => TItem.ref (natOfDigits q.1) :: t)
              else .error .reErr
            else .error .reErr
        | _ => .error .reErr
      else if isDig19 c then
        match rest2 with
        | d :: rest3 =>
          if d.isDigit then
            match rest3 with
            | e :: rest4 =>
              if isOct c && isOct d && isOct e then
                if digVal c * 64 + digVal d * 8 + digVal e ≤ 255 then
                  (parseTmpl ng fuel rest4).map
                    (fun t => TItem.lit (Char.ofNat (digVal c * 64 + digVal d * 8 + digVal e)) :: t)
                else .error .reErr
              else
                if digVal c * 10 + digVal d ≤ ng then
                  (parseTmpl ng fuel (e :: rest4)).map
                    (fun t => TItem.ref (digVal c * 10 + digVal d) :: t)
                else .error .reErr
            | [] =>
              if digVal c * 10 + digVal d ≤ ng then .ok [TItem.ref (digVal c * 10 + digVal d)]
              else .error .reErr
          else
            if digVal c ≤ ng then
              (parseTmpl ng fuel (d :: rest3)).map (fun t => TItem.ref (digVal c) :: t)
            else .error .reErr
        | [] => if digVal c ≤ ng then .ok [TItem.ref (digVal c)] else .error .reErr
      else if c = '0' then
        match rest2 with
        | d1 :: rest3 =>
          if isOct d1 then
            match rest3 with
            | d2 :: rest4 =>
              if isOct d2 then
                (parseTmpl ng fuel rest4).map
                  (fun t => TItem.lit (Char.ofNat (digVal d1 * 8 + digVal d2)) :: t)
              else
                (parseTmpl ng fuel (d2 :: rest4)).map
                  (fun t => TItem.lit (Char.ofNat (digVal d1)) :: t)
            | [] => .ok [TItem.lit (Char.ofNat (digVal d1))]
          else (parseTmpl ng fuel (d1 :: rest3)).map (fun t => TItem.lit (Char.ofNat 0) :: t)
        | [] => .ok [TItem.lit (Char.ofNat 0)]
      else if c = 'n' then (parseTmpl ng fuel rest2).map (fun t => TItem.lit '\n' :: t)
      else if c = 't' then (parseTmpl ng fuel rest2).map (fun t => TItem.lit '\t' :: t)
      else if c = 'r' then (parseTmpl ng fuel rest2).map (fun t => TItem.lit '\r' :: t)
      else if c = 'v' then (parseTmpl ng fuel rest2).map (fun t => TItem.lit '\x0b' :: t)
      else if c = 'f' then (parseTmpl ng fuel rest2).map (fun t => TItem.lit '\x0c' :: t)
      else if c = 'a' then (parseTmpl ng fuel rest2).map (fun t => TItem.lit '\x07' :: t)
      else if c = 'b' then (parseTmpl ng fuel rest2).map (fun t => TItem.lit '\x08' :: t)
      else if c.isAlpha then .error .reErr
      else (parseTmpl ng fuel rest2).map (fun t => TItem.lit '\\' :: TItem.lit c :: t)
  | fuel + 1, c :: rest => (parseTmpl ng fuel rest).map (fun t => TItem.lit c :: t)

/-- Text captured by group `n` (most recent capture wins); a group that did
not participate in the match expands to the empty string (Python ≥ 3.5,
`expand_template`: `g(group) or empty`). -/
def lookupGroup (n : Nat) (gs : Groups) : List Char :=
  match gs.find? (fun p => p.1 == n) with
  | some p => p.2
  | none => []

/-- Expand a compiled template against one match: `matched` is the whole
matched text (group `0`). -/
def expandT (items : List TItem) (gs : Groups) (matched : List Char) : List Char :=
  joinMap
    (fun it => match it with
      | .lit c => [c]
      | .ref 0 => matched
      | .ref n => lookupGroup n gs)
    items

/-- Scanning loop of `re.sub` (CPython `_sre.c`): at each position try a
match — a *non-empty* match only when `adv` is set, which happens exactly
when the previous match (at this same position) was empty; on a match emit
the expanded template and continue after it; otherwise copy one character
and advance.  `prev` is the character before the current position in the
subject.  Each step either consumes input or switches `adv` from false to
true, so `2 * s.length + 3` fuel never runs out. -/
def subScan : Nat → RE → List TItem → Option Char → List Char → Bool → List Char
  | 0, _, _, _, s, _ => s
  | fuel + 1, r, t, prev, s, adv =>
    match mHX adv r prev s with
    | some p =>
      expandT t p.2 (s.take (s.length - p.1.length)) ++
        subScan fuel r t (advPrev prev (s.take (s.length - p.1.length))) p.1
          (decide (s.length - p.1.length = 0))
    | none =>
      match s with
      | [] => []
      | c :: s2 => c :: subScan fuel r t (some c) s2 false

/-- `re.sub(pattern, template, s)` for a compiled pattern `r` with `ng`
groups: validate and compile the template (errors surface even when the
pattern never matches, since CPython compiles the template before
scanning), then substitute every non-overlapping match leftmost-first. -/
def re_sub (r : RE) (ng : Nat) (tmpl s : List Char) : Except TErr (List Char) :=
  match parseTmpl ng (tmpl.length + 1) tmpl with
  | .error e => .error e
  | .ok items => .ok (subScan (2 * s.length + 3) r items none s false)

/-- Modelled from the spec: the *leftmost* match of the pattern in `s` —
the text before it together with the match outcome — scanning candidate
positions left to right; at the starting position the match must be
non-empty when `adv` is set (the non-overlap rule after an empty match). -/
def findFirst (r : RE) : Option Char → Bool → List Char →
    Option (List Char × (List Char × Groups))
  | prev, adv, [] => (mHX adv r prev []).map (fun p => ([], p))
  | prev, adv, c :: s2 =>
    match mHX adv r prev (c :: s2) with
    | some p => some ([], p)
    | none => (findFirst r (some c) false s2).map (fun q => (c :: q.1, q.2))

/-- Modelled from the spec: "performs a **global** substitution of every
non-overlapping match of `pattern` within `line` with `replacement`" —
repeatedly find the leftmost remaining match, emit the text before it and
the expanded replacement, and continue right after the matched text, with
an empty match forbidding another empty match at the same position; the
matches and the replacement expansion (numbered capture-group
backreferences) are the engine's own. -/
def pySubFind : Nat → RE → List TItem → Option Char → List Char → Bool → List Char
  | 0, _, _, _, s, _ => s
  | fuel + 1, r, t, prev, s, adv =>
    match findFirst r prev adv s with
    | none => s
    | some (pre, p) =>
      pre ++ expandT t p.2 ((s.drop pre.length).take (s.length - pre.length - p.1.length)) ++
        pySubFind fuel r t
          (advPrev prev (pre ++ (s.drop pre.length).take (s.length - pre.length - p.1.length)))
          p.1 (decide (s.length - pre.length - p.1.length = 0))

/-- Modelled from the spec (§4.2): the global leftmost non-overlapping
substitution of a compiled pattern over the full line string, terminator
included, with back-references honoured — the specification-side definition
that `replace_line` is proved to implement. -/
def pySubSpec (r : RE) (items : List TItem) (s : List Char) : List Char :=
  pySubFind (2 * s.length + 3) r items none s false

/-- The `MAXREPEAT` sentinel of CPython's `sre`: repetition counts must be
strictly below it, else `OverflowError`. -/
def MAXREPEAT : Nat := 4294967295

/-- Parse the inside of a `{...}` quantifier (CPython `_parse`, `{` branch):
returns `none` when the braces do not form a quantifier (then `{` is a
literal), `some (min, max, rest)` for `{m}`, `{m,}`, `{,n}`, `{m,n}`
(`max = none` meaning unbounded), `OverflowError` for counts `>= MAXREPEAT`
and `re.error` for `min > max`. -/
def parseBraces (s : List Char) : Except CmpErr (Option (Nat × Option Nat × List Char)) :=
  match s with
  | '}' :: _ => .ok none
  | _ =>
    let lo := s.takeWhile Char.isDigit
    match s.dropWhile Char.isDigit with
    | ',' :: r2 =>
      let hi := r2.takeWhile Char.isDigit
      match r2.dropWhile Char.isDigit with
      | '}' :: r4 =>
        let mn := natOfDigits lo
        if lo ≠ [] ∧ MAXREPEAT ≤ mn then .error .overflow
        else
          match hi with
          | [] => .ok (some (mn, none, r4))
          | _ =>
            let mx := natOfDigits hi
            if MAXREPEAT ≤ mx then .error .overflow
            else if mx < mn then .error .reErr
            else .ok (some (mn, some mx, r4))
      | _ => .ok none
    | '}' :: r4 =>
      let mn := natOfDigits lo
      if MAXREPEAT ≤ mn then .error .overflow
      else .ok (some (mn, some mn, r4))
    | _ => .ok none

/-- Parse an escape inside a character class (CPython `_class_escape`):
returns the class member, whether it is a literal (only literals may be
range endpoints), and the rest.  `\b` is backspace inside a class. -/
def clsEscape (s : List Char) : Except CmpErr ((ClsItem × Bool) × List Char) :=
  match s with
  | [] => .error .reErr
  | c :: r =>
    if c = 'a' then .ok ((.ch '\x07', true), r)
    else if c = 'b' then .ok ((.ch '\x08', true), r)
    else if c = 'f' then .ok ((.ch '\x0c', true), r)
    else if c = 'n' then .ok ((.ch '\n', true), r)
    else if c = 'r' then .ok ((.ch '\r', true), r)
    else if c = 't' then .ok ((.ch '\t', true), r)
    else if c = 'v' then .ok ((.ch '\x0b', true), r)
    else if c = '\\' then .ok ((.ch '\\', true), r)
    else if c = 'd' then .ok ((.dig, false), r)
    else if c = 'D' then .ok ((.ndig, false), r)
    else if c = 's' then .ok ((.spc, false), r)
    else if c = 'S' then .ok ((.nspc, false), r)
    else if c = 'w' then .ok ((.wrd, false), r)
    else if c = 'W' then .ok ((.nwrd, false), r)
    else if c = 'x' then
      match r with
      | h1 :: h2 :: r2 =>
        if isHex h1 && isHex h2 then
          .ok ((.ch (Char.ofNat (hexVal h1 * 16 + hexVal h2)), true), r2)
        else .error .reErr
      | _ => .error .reErr
    else if c = 'u' then
      match r with
      | h1 :: h2 :: h3 :: h4 :: r2 =>
        if isHex h1 && isHex h2 && isHex h3 && isHex h4 then
          .ok ((.ch (Char.ofNat (((hexVal h1 * 16 + hexVal h2) * 16 + hexVal h3) * 16 + hexVal h4)),
                true), r2)
        else .error .reErr
      | _ => .error .reErr
    else if isOct c then
      match r with
      | d2 :: d3 :: r2 =>
        if isOct d2 && isOct d3 then
          if digVal c * 64 + digVal d2 * 8 + digVal d3 ≤ 255 then
            .ok ((.ch (Char.ofNat (digVal c * 64 + digVal d2 * 8 + digVal d3)), true), r2)
          else .error .reErr
        else if isOct d2 then
          .ok ((.ch (Char.ofNat (digVal c * 8 + digVal d2)), true), d3 :: r2)
        else .ok ((.ch (Char.ofNat (digVal c)), true), d2 :: d3 :: r2)
      | [d2] =>
        if isOct d2 then .ok ((.ch (Char.ofNat (digVal c * 8 + digVal d2)), true), [])
        else .ok ((.ch (Char.ofNat (digVal c)), true), [d2])
      | [] => .ok ((.ch (Char.ofNat (digVal c)), true), [])
    else if c.isDigit then .error .reErr
    else if c.isAlpha then .error .reErr
    else .ok ((.ch c, true), r)

/-- Parse the body of a character class after `[` and an optional `^`
(CPython `_parse`, `[` branch): a first `]` is a literal member, `a-b`
forms a range whose endpoints must be literals and satisfy `lo <= hi`, a
trailing `-` before `]` is a literal, an unterminated class is an error.
`ne` records whether at least one member has been parsed. -/
def parseClassBody : Nat → List Char → Bool → Except CmpErr (List ClsItem × List Char)
  | 0, _, _ => .error .reErr
  | fuel + 1, s, ne =>
    match s with
    | [] => .error .reErr
    | c :: rest =>
      if c = ']' && ne then .ok ([], rest)
      else
        match (if c = '\\' then clsEscape rest else .ok ((ClsItem.ch c, true), rest)) with
        | .error e => .error e
        | .ok ((code1, isLit1), rest2) =>
          match rest2 with
          | '-' :: rest3 =>
            match rest3 with
            | [] => .error .reErr
            | ']' :: rest4 => .ok ([code1, .ch '-'], rest4)
            | d :: rest4 =>
              match (if d = '\\' then clsEscape rest4 else .ok ((ClsItem.ch d, true), rest4)) with
              | .error e => .error e
              | .ok ((code2, isLit2), rest5) =>
                if isLit1 && isLit2 then
                  match code1, code2 with
                  | .ch a, .ch b =>
                    if b < a then .error .reErr
                    else
                      match parseClassBody fuel rest5 true with
                      | .ok q => .ok (.range a b :: q.1, q.2)
                      | .error e => .error e
                  | _, _ => .error .reErr
                else .error .reErr
          | _ =>
            match parseClassBody fuel rest2 true with
            | .ok q => .ok (code1 :: q.1, q.2)
            | .error e => .error e

/-- Parse an escape in pattern position (CPython `_escape`): category
shorthands and position assertions first (`\b` is a word boundary here),
then the literal escapes, `\xHH` / `\uHHHH` hexadecimal escapes, octal
escapes, and numbered backreferences `\1`–`\99` (three octal digits win
over a two-digit group number; a reference must denote an already closed
group).  Returns the atom, whether it is a zero-width assertion (which may
not be repeated), and the rest.  `\N{...}` is outside the fragment. -/
def parseEsc (s : List Char) (ng : Nat) (opn : List Nat) :
    Except CmpErr ((RE × Bool) × List Char) :=
  match s with
  | [] => .error .reErr
  | c :: r =>
    if c = 'A' then .ok ((.atBegin, true), r)
    else if c = 'Z' then .ok ((.atEndStr, true), r)
    else if c = 'b' then .ok ((.bound true, true), r)
    else if c = 'B' then .ok ((.bound false, true), r)
    else if c = 'd' then .ok ((.cls false [.dig], false), r)
    else if c = 'D' then .ok ((.cls false [.ndig], false), r)
    else if c = 's' then .ok ((.cls false [.spc], false), r)
    else if c = 'S' then .ok ((.cls false [.nspc], false), r)
    else if c = 'w' then .ok ((.cls false [.wrd], false), r)
    else if c = 'W' then .ok ((.cls false [.nwrd], false), r)
    else if c = 'a' then .ok ((.ch '\x07', false), r)
    else if c = 'f' then .ok ((.ch '\x0c', false), r)
    else if c = 'n' then .ok ((.ch '\n', false), r)
    else if c = 'r' then .ok ((.ch '\r', false), r)
    else if c = 't' then .ok ((.ch '\t', false), r)
    else if c = 'v' then .ok ((.ch '\x0b', false), r)
    else if c = '\\' then .ok ((.ch '\\', false), r)
    else if c = 'x' then
      match r with
      | h1 :: h2 :: r2 =>
        if isHex h1 && isHex h2 then
          .ok ((.ch (Char.ofNat (hexVal h1 * 16 + hexVal h2)), false), r2)
        else .error .reErr
      | _ => .error .reErr
    else if c = 'u' then
      match r with
      | h1 :: h2 :: h3 :: h4 :: r2 =>
        if isHex h1 && isHex h2 && isHex h3 && isHex h4 then
          .ok ((.ch (Char.ofNat (((hexVal h1 * 16 + hexVal h2) * 16 + hexVal h3) * 16 + hexVal h4)),
                false), r2)
        else .error .reErr
      | _ => .error .reErr
    else if c = '0' then
      match r with
      | d1 :: r2 =>
        if isOct d1 then
          match r2 with
          | d2 :: r3 =>
            if isOct d2 then .ok ((.ch (Char.ofNat (digVal d1 * 8 + digVal d2)), false), r3)
            else .ok ((.ch (Char.ofNat (digVal d1)), false), d2 :: r3)
          | [] => .ok ((.ch (Char.ofNat (digVal d1)), false), [])
        else .ok ((.ch (Char.ofNat 0), false), d1 :: r2)
      | [] => .ok ((.ch (Char.ofNat 0), false), [])
    else if isDig19 c then
      match r with
      | d :: r2 =>
        if d.isDigit then
          match r2 with
          | e :: r3 =>
            if isOct c && isOct d && isOct e then
              if digVal c * 64 + digVal d * 8 + digVal e ≤ 255 then
                .ok ((.ch (Char.ofNat (digVal c * 64 + digVal d * 8 + digVal e)), false), r3)
              else .error .reErr
            else
              if digVal c * 10 + digVal d ≤ ng && !(opn.contains (digVal c * 10 + digVal d)) then
                .ok ((.bref (digVal c * 10 + digVal d), false), e :: r3)
              else .error .reErr
          | [] =>
            if digVal c * 10 + digVal d ≤ ng && !(opn.contains (digVal c * 10 + digVal d)) then
              .ok ((.bref (digVal c * 10 + digVal d), false), [])
            else .error .reErr
        else
          if digVal c ≤ ng && !(opn.contains (digVal c)) then
            .ok ((.bref (digVal c), false), d :: r2)
          else .error .reErr
      | [] =>
        if digVal c ≤ ng && !(opn.contains (digVal c)) then .ok ((.bref (digVal c), false), [])
        else .error .reErr
    else if c.isAlphanum then .error .reErr
    else .ok ((.ch c, false), r)

/-- Repetition kind: greedy, lazy (`...?`), or possessive (`...+`). -/
inductive QKind : Type where
  | greedy : QKind
  | lazyQ : QKind
  | possQ : QKind
deriving DecidableEq

/-- `k` optional copies of `a`, greedy (prefer present) or lazy (prefer
absent). -/
def optChain (lz : Bool) (a : RE) : Nat → RE
  | 0 => .eps
  | k + 1 =>
    if lz then .alt .eps (.seq a (optChain lz a k))
    else .alt (.seq a (optChain lz a k)) .eps

/-- `n` mandatory copies of `a` followed by `tail`. -/
def seqN (a : RE) : Nat → RE → RE
  | 0, tail => tail
  | n + 1, tail => .seq a (seqN a n tail)

/-- Expand a repetition `a{min,max}` (with `*`, `+`, `?` as special cases)
into the base constructors: `min` mandatory copies, then a star or a chain
of optionals, atomically wrapped when possessive. -/
def repDesugar (a : RE) (mn : Nat) (mx : Option Nat) (k : QKind) : RE :=
  let tail := match mx with
    | none => if k = QKind.lazyQ then RE.starL a else RE.star a
    | some m => optChain (k = QKind.lazyQ) a (m - mn)
  if k = QKind.possQ then .poss (seqN a mn tail) else seqN a mn tail

/-- After a repetition has been built, a directly following quantifier is a
`multiple repeat` `re.error` (CPython checks `_REPEATCODES`); `{` counts
only when it parses as a quantifier. -/
def afterRepChk (b : RE) (rest : List Char) : Except CmpErr (RE × List Char) :=
  match rest with
  | [] => .ok (b, [])
  | q2 :: r2 =>
    if q2 = '*' || q2 = '+' || q2 = '?' then .error .reErr
    else if q2 = '{' then
      match parseBraces r2 with
      | .ok (some _) => .error .reErr
      | .ok none => .ok (b, rest)
      | .error e => .error e
    else .ok (b, rest)

/-- Apply an optional `?` (lazy) or `+` (possessive) suffix to a repetition
and check for a following repeat. -/
def applySuffix (a : RE) (mn : Nat) (mx : Option Nat) (rest : List Char) :
    Except CmpErr (RE × List Char) :=
  match rest with
  | '?' :: rest2 => afterRepChk (repDesugar a mn mx .lazyQ) rest2
  | '+' :: rest2 => afterRepChk (repDesugar a mn mx .possQ) rest2
  | _ => afterRepChk (repDesugar a mn mx .greedy) rest

/-- Recursive-descent parser for the supported pattern fragment, modelling
CPython `_parse_sub` / `_parse`.  `reP fuel true s ng opn` parses an
alternation, `reP fuel false s ng opn` one alternative: a sequence of atoms
(group `(...)` or `(?:...)`, class, escape, assertion, `.`, or literal),
each optionally followed by one quantifier with an optional lazy or
possessive suffix, stopping at `|`, `)` or end of input.  `ng` counts the
capture groups opened so far, `opn` the still-open ones (a backreference to
an open group is an error).  A quantifier with nothing before it, on an
assertion, or directly after another quantifier is a `re.error`;
`(?...)` extensions other than `(?:` are outside the fragment. -/
def reP : Nat → Bool → List Char → Nat → List Nat →
    Except CmpErr (RE × List Char × Nat)
  | 0, _, _, _, _ => .error .reErr
  | fuel + 1, true, s, ng, opn =>
    match reP fuel false s ng opn with
    | .error e => .error e
    | .ok (a, rest, ng2) =>
      match rest with
      | '|' :: rest2 =>
        match reP fuel true rest2 ng2 opn with
        | .ok (b, rest3, ng3) => .ok (.alt a b, rest3, ng3)
        | .error e => .error e
      | _ => .ok (a, rest, ng2)
  | fuel + 1, false, s, ng, opn =>
    match s with
    | [] => .ok (.eps, [], ng)
    | c :: rest =>
      if c = ')' || c = '|' then .ok (.eps, c :: rest, ng)
      else
        match
          (if c = '(' then
            match rest with
            | '?' :: rest2 =>
              match rest2 with
              | ':' :: rest3 =>
                match reP fuel true rest3 ng opn with
                | .ok (inner, restA, ng2) =>
                  match restA with
                  | ')' :: restB => .ok ((inner, false), restB, ng2)
                  | _ => .error CmpErr.reErr
                | .error e => .error e
              | _ => .error CmpErr.reErr
            | _ =>
              match reP fuel true rest (ng + 1) ((ng + 1) :: opn) with
              | .ok (inner, restA, ng2) =>
                match restA with
                | ')' :: restB => .ok ((RE.grp (ng + 1) inner, false), restB, ng2)
                | _ => .error CmpErr.reErr
              | .error e => .error e
          else if c = '[' then
            match rest with
            | '^' :: rest2 =>
              match parseClassBody (rest2.length + 2) rest2 false with
              | .ok q => .ok ((RE.cls true q.1, false), q.2, ng)
              | .error e => .error e
            | _ =>
              match parseClassBody (rest.length + 2) rest false with
              | .ok q => .ok ((RE.cls false q.1, false), q.2, ng)
              | .error e => .error e
          else if c = '.' then .ok ((RE.dot, false), rest, ng)
          else if c = '^' then .ok ((RE.atBegin, true), rest, ng)
          else if c = '$' then .ok ((RE.atEnd, true), rest, ng)
          else if c = '\\' then
            match parseEsc rest ng opn with
            | .ok q => .ok (q.1, q.2, ng)
            | .error e => .error e
          else if c = '*' || c = '+' || c = '?' then .error CmpErr.reErr
          else if c = '{' then
            match parseBraces rest with
            | .ok none => .ok ((RE.ch '{', false), rest, ng)
            | .ok (some _) => .error CmpErr.reErr
            | .error e => .error e
          else .ok ((RE.ch c, false), rest, ng) :
            Except CmpErr ((RE × Bool) × List Char × Nat)) with
        | .error e => .error e
        | .ok ((a, isAssert), restQ, ng2) =>
          match
            (match restQ with
            | [] => .ok (a, [])
            | q :: restR =>
              if q = '*' then
                if isAssert then .error CmpErr.reErr else applySuffix a 0 none restR
              else if q = '+' then
                if isAssert then .error CmpErr.reErr else applySuffix a 1 none restR
              else if q = '?' then
                if isAssert then .error CmpErr.reErr else applySuffix a 0 (some 1) restR
              else if q = '{' then
                match parseBraces restR with
                | .ok none => .ok (a, restQ)
                | .ok (some b) =>
                  if isAssert then .error CmpErr.reErr
                  else applySuffix a b.1 b.2.1 b.2.2
                | .error e => .error e
              else .ok (a, restQ) : Except CmpErr (RE × List Char)) with
          | .error e => .error e
          | .ok (aq, restF) =>
            match reP fuel false restF ng2 opn with
            | .ok (tail, restT, ng3) => .ok (.seq aq tail, restT, ng3)
            | .error e => .error e

/-- `re.compile(pattern)` (cfn-hint.py line 57): `re.error` and
`OverflowError` are the modelled failure kinds; leftover input after the
top-level alternation is an unbalanced `)` (`re.error`).  Returns the
parsed regex together with its number of capture groups. -/
def re_compile (pat : List Char) : Except CmpErr (RE × Nat) :=
  match reP (4 * pat.length + 8) true pat 0 [] with
  | .ok (r, [], ng) => .ok (r, ng)
  | .ok (_, _ :: _, _) => .error .reErr
  | .error e => .error e

/-- `replace_line` (cfn-hint.py lines 53–60): compile the pattern and apply
the global substitution to the full line string (terminator included).
`re.error` — from compilation or from the substitution's template — is
caught and re-raised as `ValueError` (the kind `process_content` catches);
the `IndexError` and `OverflowError` kinds pass through the
`except re.error` handler untouched. -/
def replace_line (line pat rep : List Char) : Except PyExc (List Char) :=
  match re_compile pat with
  | .error CmpErr.reErr => .error PyExc.valueError
  | .error CmpErr.overflow => .error PyExc.overflowError
  | .ok rn =>
    match re_sub rn.1 rn.2 rep line with
    | .error TErr.reErr => .error PyExc.valueError
    | .error TErr.idxErr => .error PyExc.indexError
    | .ok out => .ok out

/-- Loop of `process_content` (cfn-hint.py lines 71–102) over the remaining
lines, with `acc` the reversed list of output lines built so far.  A line
containing the hint marker is appended and its hint parsed; on
`ValueError` from `parse_hint` the next line is *not* consumed
(`continue`); on success the next line is drawn (`next(lines_iter)`) — at
end of input the loop just ends (`StopIteration` caught) — and
`replace_line` is applied to it, appending the rewritten line, or the
unmodified line when `replace_line` raises `ValueError`; an exception of
any other kind is *not* caught by the `except ValueError` handler and
propagates out of the loop.  Any other line is appended unchanged.  The
`Except` result mirrors the exception channel of the Python function. -/
def processGo : List (List Char) → List (List Char) → Except PyExc (List (List Char))
  | [], acc => Except.ok acc.reverse
  | line :: rest, acc =>
    if isHintLine line then
      match parse_hint line with
      | .error _ => processGo rest (line :: acc)
      | .ok pr =>
        match rest with
        | [] => Except.ok (line :: acc).reverse
        | next :: rest2 =>
          match replace_line next pr.1 pr.2 with
          | .error PyExc.valueError => processGo rest2 (next :: line :: acc)
          | .error e => .error e
          | .ok m => processGo rest2 (m :: line :: acc)
    else processGo rest (line :: acc)

/-- The hint-dispatch step of the processing loop, as a standalone function:
what `process_content` does with a line recognised as a Hint Line (append
it, try `parse_hint`, and handle the following line accordingly). -/
def hintStepSpec (line : List Char) (rest acc : List (List Char)) :
    Except PyExc (List (List Char)) :=
  match parse_hint line with
  | .error _ => processGo rest (line :: acc)
  | .ok pr =>
    match rest with
    | [] => Except.ok (line :: acc).reverse
    | next :: rest2 =>
      match replace_line next pr.1 pr.2 with
      | .error PyExc.valueError => processGo rest2 (next :: line :: acc)
      | .error e => .error e
      | .ok m => processGo rest2 (m :: line :: acc)

/-- `process_content` (cfn-hint.py lines 63–104): split into lines with
terminators kept, run the processing loop, and join the output lines. -/
def process_content (content : List Char) : Except PyExc (List Char) :=
  Except.map List.flatten (processGo (splitlinesKeepends content) [])


/-- Concatenating the lines produced by `slGo` restores the unsplit input. -/
theorem flatten_slGo : ∀ fuel cur s, (slGo fuel cur s).flatten = cur.reverse ++ s := by
  intro fuel
  induction fuel with
  | zero =>
    intro cur s
    simp only [slGo]
    split
    · rename_i h
      simp only [Bool.and_eq_true, decide_eq_true_eq] at h
      simp [h.1, h.2]
    · simp
  | succ fuel ih =>
    intro cur s
    match s with
    | [] =>
      simp only [slGo]
      split
      · simp_all
      · simp
    | c :: rest =>
      simp only [slGo]
      split
      · rename_i h
        simp only [Bool.and_eq_true, decide_eq_true_eq] at h
        obtain ⟨hc, hd⟩ := h
        match rest, hd with
        | d :: rest2, hd =>
          simp only [List.head?_cons, Option.some.injEq] at hd
          simp [ih, hc, hd, List.append_assoc]
      · split
        · simp [ih]
        · simp [ih]

/-- Splitting a document into kept-terminator lines and concatenating them
is the identity (round-trip fidelity of the line model). -/
theorem flatten_splitlines (s : List Char) : (splitlinesKeepends s).flatten = s := by
  simpa using flatten_slGo (s.length + 1) [] s

/-- The processing loop either returns `Except.ok` with exactly one output
line element for every input line element (plus the accumulator), or
propagates one of the two uncaught exception kinds. -/
theorem processGo_spec : ∀ lines acc,
    (∃ out, processGo lines acc = Except.ok out ∧ out.length = acc.length + lines.length) ∨
    processGo lines acc = Except.error PyExc.indexError ∨
    processGo lines acc = Except.error PyExc.overflowError := by
  intro lines acc
  induction lines, acc using processGo.induct with
  | case1 acc => exact Or.inl ⟨acc.reverse, by simp [processGo]⟩
  | case2 line rest acc hhint a herr ih =>
    simp only [processGo, hhint, if_true, herr]
    rcases ih with ⟨out, h1, h2⟩ | h | h
    · exact Or.inl ⟨out, h1, by simp at h2 ⊢; omega⟩
    · exact Or.inr (Or.inl h)
    · exact Or.inr (Or.inr h)
  | case3 line acc hhint pr hok =>
    simp only [processGo, hhint, if_true, hok]
    exact Or.inl ⟨_, rfl, by simp⟩
  | case4 line acc hhint pr hok next rest2 herr ih =>
    simp only [processGo, hhint, if_true, hok, herr]
    rcases ih with ⟨out, h1, h2⟩ | h | h
    · exact Or.inl ⟨out, h1, by simp at h2 ⊢; omega⟩
    · exact Or.inr (Or.inl h)
    · exact Or.inr (Or.inr h)
  | case5 line acc hhint pr hok next rest2 e hne herr =>
    cases e with
    | valueError => exact absurd rfl hne
    | indexError =>
      refine Or.inr (Or.inl ?_)
      simp [processGo, hhint, hok, herr]
    | overflowError =>
      refine Or.inr (Or.inr ?_)
      simp [processGo, hhint, hok, herr]
  | case6 line acc hhint pr hok next rest2 m hm ih =>
    simp only [processGo, hhint, if_true, hok, hm]
    rcases ih with ⟨out, h1, h2⟩ | h | h
    · exact Or.inl ⟨out, h1, by simp at h2 ⊢; omega⟩
    · exact Or.inr (Or.inl h)
    · exact Or.inr (Or.inr h)
  | case7 line rest acc hhint ih =>
    simp only [processGo, hhint, if_false, Bool.false_eq_true]
    rcases ih with ⟨out, h1, h2⟩ | h | h
    · exact Or.inl ⟨out, h1, by simp at h2 ⊢; omega⟩
    · exact Or.inr (Or.inl h)
    · exact Or.inr (Or.inr h)

theorem reM_rest_le : ∀ fuel re prev s g, ∀ p ∈ reM fuel re prev s g,
    p.1.length ≤ s.length := by
  intro fuel
  induction fuel with
  | zero => intro re prev s g p hp; simp [reM] at hp
  | succ fuel ih =>
    intro re prev s g p hp
    match re with
    | .eps => simp only [reM, List.mem_singleton] at hp; subst hp; simp
    | .ch c =>
      match s with
      | [] => simp [reM] at hp
      | x :: rest =>
        simp only [reM] at hp
        split at hp <;> simp_all
    | .dot =>
      match s with
      | [] => simp [reM] at hp
      | x :: rest =>
        simp only [reM] at hp
        split at hp <;> simp_all
    | .cls neg items =>
      match s with
      | [] => simp [reM] at hp
      | x :: rest =>
        simp only [reM] at hp
        split at hp <;> simp_all
    | .seq a b =>
      simp only [reM, joinMap, List.mem_flatten, List.mem_map] at hp
      obtain ⟨l, ⟨q, hq, rfl⟩, hpl⟩ := hp
      exact le_trans (ih b _ q.1 q.2 p hpl) (ih a prev s g q hq)
    | .alt a b =>
      simp only [reM, List.mem_append] at hp
      rcases hp with hp | hp
      · exact ih a prev s g p hp
      · exact ih b prev s g p hp
    | .grp i a =>
      simp only [reM, List.mem_map] at hp
      obtain ⟨q, hq, rfl⟩ := hp
      exact ih a prev s g q hq
    | .star a =>
      simp only [reM, List.mem_append, joinMap, List.mem_flatten, List.mem_map,
        List.mem_filter, List.mem_singleton] at hp
      rcases hp with ⟨l, ⟨q, ⟨hq, _⟩, rfl⟩, hpl⟩ | hp
      · exact le_trans (ih (.star a) _ q.1 q.2 p hpl) (ih a prev s g q hq)
      · subst hp; simp
    | .starL a =>
      simp only [reM, List.mem_cons, joinMap, List.mem_flatten, List.mem_map,
        List.mem_filter] at hp
      rcases hp with hp | ⟨l, ⟨q, ⟨hq, _⟩, rfl⟩, hpl⟩
      · subst hp; simp
      · exact le_trans (ih (.starL a) _ q.1 q.2 p hpl) (ih a prev s g q hq)
    | .poss a =>
      simp only [reM] at hp
      exact ih a prev s g p (List.take_subset 1 _ hp)
    | .bref n =>
      simp only [reM] at hp
      split at hp
      · split at hp
        · simp only [List.mem_singleton] at hp
          subst hp
          simp
        · simp at hp
      · simp at hp
    | .atBegin =>
      simp only [reM] at hp
      split at hp <;> simp_all
    | .atEnd =>
      simp only [reM] at hp
      split at hp
      · simp_all
      · split at hp <;> simp_all
      · simp_all
    | .atEndStr =>
      simp only [reM] at hp
      split at hp <;> simp_all
    | .bound word =>
      simp only [reM] at hp
      split at hp <;> simp_all

theorem headq_mem {α : Type} (l : List α) (a : α) (h : l.head? = some a) : a ∈ l := by
  cases l with
  | nil => simp at h
  | cons x xs => simp at h; subst h; exact List.mem_cons_self x xs

theorem mHX_rest_le (adv : Bool) (r : RE) (prev : Option Char) (s : List Char)
    (p : List Char × Groups) (h : mHX adv r prev s = some p) : p.1.length ≤ s.length := by
  cases adv with
  | false =>
    simp only [mHX, if_false, Bool.false_eq_true, matchHere] at h
    exact reM_rest_le _ r prev s [] p (headq_mem _ _ h)
  | true =>
    simp only [mHX, if_true, matchHereNE] at h
    have hp := headq_mem _ _ h
    exact reM_rest_le _ r prev s [] p (List.mem_filter.mp hp).1

theorem mHX_true_lt (r : RE) (prev : Option Char) (s : List Char)
    (p : List Char × Groups) (h : mHX true r prev s = some p) : p.1.length < s.length := by
  simp only [mHX, if_true, matchHereNE] at h
  have hp := headq_mem _ _ h
  have := (List.mem_filter.mp hp).2
  simpa using this

theorem findFirst_of_mHX (adv : Bool) (r : RE) (prev : Option Char) (s : List Char)
    (p : List Char × Groups) (h : mHX adv r prev s = some p) :
    findFirst r prev adv s = some ([], p) := by
  cases s <;> simp [findFirst, h]

theorem advPrev_cons (prev : Option Char) (c : Char) (l : List Char) :
    advPrev prev (c :: l) = advPrev (some c) l := by
  cases l with
  | nil => simp [advPrev, List.getLast?]
  | cons x xs =>
    simp only [advPrev, List.getLast?_cons_cons]
    cases hx : (x :: xs).getLast? with
    | none =>
      rw [List.getLast?_eq_none_iff] at hx
      exact absurd hx (by simp)
    | some d => rfl

theorem pySubFind_shift (f : Nat) (r : RE) (t : List TItem) (prev : Option Char)
    (c : Char) (s2 : List Char) (adv : Bool)
    (hm : mHX adv r prev (c :: s2) = none) :
    pySubFind (f + 1) r t prev (c :: s2) adv =
      c :: pySubFind (f + 1) r t (some c) s2 false := by
  cases hf : findFirst r (some c) false s2 with
  | none =>
    simp only [pySubFind, findFirst, hm, hf, Option.map_none']
  | some q =>
    simp only [pySubFind, findFirst, hm, hf, Option.map_some']
    simp only [List.length_cons, List.cons_append, List.drop_succ_cons,
      Nat.succ_sub_succ, advPrev_cons, List.append_assoc]

theorem subScan_eq_pySubFind (r : RE) (t : List TItem) : ∀ N s (prev : Option Char)
    (adv : Bool) f1 f2,
    2 * s.length + (cond adv 0 1) ≤ N →
    2 * s.length + (cond adv 0 1) < f1 →
    2 * s.length + (cond adv 0 1) < f2 →
    subScan f1 r t prev s adv = pySubFind f2 r t prev s adv := by
  intro N
  induction N with
  | zero =>
    intro s prev adv f1 f2 hN h1 h2
    have hs : s = [] := by
      cases s with
      | nil => rfl
      | cons c s2 =>
        exfalso
        cases adv <;> simp [List.length_cons] at hN
    have ha : adv = true := by
      cases adv with
      | true => rfl
      | false => subst hs; simp at hN
    subst hs; subst ha
    match f1, f2, h1, h2 with
    | f1 + 1, f2 + 1, _, _ =>
      have hm : mHX true r prev ([] : List Char) = none := by
        cases hmm : mHX true r prev ([] : List Char) with
        | none => rfl
        | some p =>
          exfalso
          have := mHX_true_lt r prev [] p hmm
          simp at this
      simp [subScan, pySubFind, findFirst, hm]
  | succ N ih =>
    intro s prev adv f1 f2 hN h1 h2
    match f1, f2, h1, h2 with
    | f1 + 1, f2 + 1, h1, h2 =>
      cases hm : mHX adv r prev s with
      | some p =>
        have hle : p.1.length ≤ s.length := mHX_rest_le adv r prev s p hm
        have hFF := findFirst_of_mHX adv r prev s p hm
        simp only [subScan, pySubFind, hm, hFF, List.length_nil, Nat.sub_zero,
          List.drop_zero, List.nil_append]
        congr 1
        by_cases hc : s.length - p.1.length = 0
        · have hadv : adv = false := by
            cases adv with
            | false => rfl
            | true => exact absurd (mHX_true_lt r prev s p hm) (by omega)
          subst hadv
          simp only [Bool.cond_false] at hN h1 h2
          apply ih <;> simp [hc] <;> omega
        · have hlt : p.1.length < s.length := by omega
          cases adv with
          | false =>
            simp only [Bool.cond_false] at hN h1 h2
            apply ih <;> simp [hc] <;> omega
          | true =>
            simp only [Bool.cond_true] at hN h1 h2
            apply ih <;> simp [hc] <;> omega
      | none =>
        cases s with
        | nil => simp [subScan, pySubFind, findFirst, hm]
        | cons c s2 =>
          rw [pySubFind_shift f2 r t prev c s2 adv hm]
          simp only [subScan, hm]
          congr 1
          cases adv with
          | false =>
            simp only [Bool.cond_false, List.length_cons] at hN h1 h2
            apply ih <;> simp <;> omega
          | true =>
            simp only [Bool.cond_true, List.length_cons] at hN h1 h2
            apply ih <;> simp <;> omega

theorem replace_line_spec (line pat rep : List Char) (r : RE) (ng : Nat)
    (items : List TItem)
    (hc : re_compile pat = Except.ok (r, ng))
    (ht : parseTmpl ng (rep.length + 1) rep = Except.ok items) :
    replace_line line pat rep = Except.ok (pySubSpec r items line) := by
  simp only [replace_line, hc, re_sub, ht, pySubSpec]
  congr 1
  have h := subScan_eq_pySubFind r items (2 * line.length + 1) line none false
    (2 * line.length + 3) (2 * line.length + 3) ?h1 ?h2 ?h3
  case h1 => show 2 * line.length + 1 ≤ 2 * line.length + 1; omega
  case h2 => show 2 * line.length + 1 < 2 * line.length + 3; omega
  case h3 => show 2 * line.length + 1 < 2 * line.length + 3; omega
  exact h

/-- Lines without the hint marker pass through the loop unchanged. -/
theorem processGo_nonhint : ∀ ls rest acc, (∀ l ∈ ls, isHintLine l = false) →
    processGo (ls ++ rest) acc = processGo rest (ls.reverse ++ acc) := by
  intro ls
  induction ls with
  | nil => intro rest acc _; simp
  | cons l ls ih =>
    intro rest acc h
    have hl : isHintLine l = false := h l (by simp)
    have hls : ∀ x ∈ ls, isHintLine x = false := fun x hx => h x (by simp [hx])
    simp only [List.cons_append, processGo, hl, Bool.false_eq_true, if_false]
    rw [ih rest (l :: acc) hls]
    simp

/-- A list is an initial segment of itself extended by anything. -/
theorem listStarts_append_self : ∀ n b : List Char, listStarts n (n ++ b) = true := by
  intro n
  induction n with
  | nil => intro b; simp [listStarts]
  | cons a as ih => intro b; simp [listStarts, ih]

/-- An initial-segment occurrence makes `splitOnceSub` succeed. -/
theorem splitOnceSub_isSome_of_starts (n s : List Char) (h : listStarts n s = true) :
    (splitOnceSub n s).isSome = true := by
  match s with
  | [] => simp [splitOnceSub, h]
  | c :: rest => simp [splitOnceSub, h]

/-- A string containing `n` as a factor contains it as a substring. -/
theorem containsSub_of_mid : ∀ a n b : List Char, containsSub n (a ++ (n ++ b)) = true := by
  intro a n b
  induction a with
  | nil =>
    simp only [List.nil_append, containsSub]
    exact splitOnceSub_isSome_of_starts n (n ++ b) (listStarts_append_self n b)
  | cons c as ih =>
    simp only [containsSub, List.cons_append, splitOnceSub]
    split
    · simp
    · simp only [containsSub] at ih
      simpa using ih

/-- An initial segment can be split off explicitly. -/
theorem starts_eq_append_drop : ∀ n s : List Char, listStarts n s = true →
    s = n ++ s.drop n.length := by
  intro n
  induction n with
  | nil => intro s _; simp
  | cons a as ih =>
    intro s h
    match s with
    | [] => simp [listStarts] at h
    | b :: bs =>
      simp only [listStarts, Bool.and_eq_true, decide_eq_true_eq] at h
      obtain ⟨hab, hrest⟩ := h
      simpa [hab] using ih bs hrest

/-- A successful `splitOnceSub` decomposes the string around the needle. -/
theorem splitOnceSub_eq : ∀ s n (p : List Char × List Char), splitOnceSub n s = some p →
    s = p.1 ++ n ++ p.2 := by
  intro s
  induction s with
  | nil =>
    intro n p h
    simp only [splitOnceSub] at h
    split at h
    · rename_i hs
      simp only [Option.some.injEq] at h
      have := starts_eq_append_drop n [] hs
      cases h
      simpa using this.symm
    · exact absurd h (by simp)
  | cons c rest ih =>
    intro n p h
    simp only [splitOnceSub] at h
    split at h
    · rename_i hs
      simp only [Option.some.injEq] at h
      cases h
      simpa using starts_eq_append_drop n (c :: rest) hs
    · simp only [Option.map_eq_some'] at h
      obtain ⟨q, hq, hpq⟩ := h
      cases hpq
      simp [ih n q hq]

/-- Every character of a contained substring occurs in the string. -/
theorem mem_of_containsSub (n s : List Char) (c : Char) (h : containsSub n s = true)
    (hc : c ∈ n) : c ∈ s := by
  simp only [containsSub, Option.isSome_iff_exists] at h
  obtain ⟨p, hp⟩ := h
  rw [splitOnceSub_eq s n p hp]
  simp [hc]

/-- When `chopAtChar` finds nothing, the separator does not occur. -/
theorem chopAtChar_none_not_mem : ∀ (sep : Char) (s : List Char),
    chopAtChar sep s = none → sep ∉ s := by
  intro sep s
  induction s with
  | nil => simp
  | cons c rest ih =>
    intro h
    simp only [chopAtChar] at h
    split at h
    · exact absurd h (by simp)
    · rename_i hne
      simp only [Option.map_eq_none'] at h
      simp only [List.mem_cons, not_or]
      exact ⟨fun hcc => hne hcc.symm, ih h⟩

/-- `pySplitMax` never returns an empty list of parts. -/
theorem pySplitMax_ne_nil : ∀ (sep : Char) m s, pySplitMax sep m s ≠ [] := by
  intro sep m s
  match m with
  | 0 => simp [pySplitMax]
  | m + 1 =>
    simp only [pySplitMax]
    split <;> simp

/-- Either a maxsplit split uses all its splits (giving `m + 1` parts), or
its final part contains no further separator. -/
theorem pySplitMax_full_or_clean : ∀ (sep : Char) m s,
    (pySplitMax sep m s).length = m + 1 ∨ sep ∉ (pySplitMax sep m s).getLastD [] := by
  intro sep m
  induction m with
  | zero => intro s; left; simp [pySplitMax]
  | succ m ih =>
    intro s
    simp only [pySplitMax]
    cases hchop : chopAtChar sep s with
    | none => right; simpa using chopAtChar_none_not_mem sep s hchop
    | some p =>
      rcases ih p.2 with hlen | hclean
      · left; simp [hlen]
      · right
        have hne := pySplitMax_ne_nil sep m p.2
        rw [List.getLastD_cons]
        rwa [List.getLastD_eq_getLast?, List.getLast?_eq_getLast _ hne,
             Option.getD_some] at hclean ⊢

/-- Stripping only removes characters: membership is preserved. -/
theorem mem_pyStrip (c : Char) (s : List Char) (h : c ∈ pyStrip s) : c ∈ s := by
  simp only [pyStrip, List.mem_reverse] at h
  have h1 := (List.dropWhile_sublist _).mem h
  simp only [List.mem_reverse] at h1
  exact (List.dropWhile_sublist _).mem h1

/-- C1: for every document string none of whose lines contains the hint
marker, `process_content` returns the input byte-identically, each line
keeping its own original terminator (mixed terminators and a missing final
newline included, since the kept-terminator line split round-trips). -/
theorem c1_no_hint_identity (content : List Char)
    (h : ∀ l ∈ splitlinesKeepends content, isHintLine l = false) :
    process_content content = Except.ok content := by
  have h1 := processGo_nonhint (splitlinesKeepends content) [] [] h
  simp only [List.append_nil] at h1
  simp [process_content, h1, processGo, Except.map, flatten_splitlines]

/-- Witness for C1 on a concrete document mixing `\n`, `\r\n` and `\r`
terminators and lacking a final newline. -/
theorem c1_no_hint_identity_witness :
    (∀ l ∈ splitlinesKeepends "a\nb\r\nc\rd".toList, isHintLine l = false) ∧
    process_content "a\nb\r\nc\rd".toList = Except.ok "a\nb\r\nc\rd".toList :=
  ⟨by decide, c1_no_hint_identity _ (by decide)⟩

/-- C2 counterexample: a syntactically well-formed hint whose replacement
references an unknown *named* group, `\g<bar>`, makes CPython's
`parse_template` raise `IndexError` (`re/_parser.py`: `unknown group name`)
— which is neither the `re.error` caught inside `replace_line` (line 59)
nor the `ValueError` caught inside `process_content` (line 93) — so the
exception escapes `process_content`, refuting "no exception escapes
process".  The hint itself parses and its pattern compiles. -/
theorem c2_uncaught_exception_counterexample :
    parse_hint "# cfn-hint: replace: foo with: \\g<bar>\n".toList =
      Except.ok ("foo".toList, "\\g<bar>".toList) ∧
    (re_compile "foo".toList).isOk = true ∧
    process_content "# cfn-hint: replace: foo with: \\g<bar>\nfoo baz\n".toList =
      Except.error PyExc.indexError :=
  ⟨by decide, by decide, by decide⟩

/-- C2 (amended): for every input string, `process_content` either returns
normally — every `re.error` / `ValueError` condition (malformed hint,
non-compiling pattern, invalid numbered group reference) is recovered
internally line-by-line — or propagates one of the two exception kinds the
handlers do not catch: the `IndexError` of an unknown named-group
replacement reference, or the `OverflowError` of a repetition count of at
least 2^32 − 1. -/
theorem c2_process_recovery (content : List Char) :
    (∃ out, process_content content = Except.ok out) ∨
    process_content content = Except.error PyExc.indexError ∨
    process_content content = Except.error PyExc.overflowError := by
  rcases processGo_spec (splitlinesKeepends content) [] with ⟨out, h1, _⟩ | h1 | h1
  · exact Or.inl ⟨out.flatten, by simp [process_content, h1, Except.map]⟩
  · exact Or.inr (Or.inl (by simp [process_content, h1, Except.map]))
  · exact Or.inr (Or.inr (by simp [process_content, h1, Except.map]))

/-- C3: for every line, every pattern that compiles and every replacement
whose template compiles, `replace_line` returns exactly the
specification-side global substitution `pySubSpec` — every non-overlapping
match substituted leftmost-first with numbered capture-group
back-references honoured — applied to the full line string including its
terminator.  The second conjunct is the claim's own `process` example; the
third shows a pattern consuming the terminator (`b\n` across the line
body and its `\n`). -/
theorem c3_global_substitution :
    (∀ (line pat rep : List Char) (r : RE) (ng : Nat) (items : List TItem),
      re_compile pat = Except.ok (r, ng) →
      parseTmpl ng (rep.length + 1) rep = Except.ok items →
      replace_line line pat rep = Except.ok (pySubSpec r items line)) ∧
    process_content "# cfn-hint: replace: (\\d+) with: [\\1]\ncount: 42\n".toList =
      Except.ok "# cfn-hint: replace: (\\d+) with: [\\1]\ncount: [42]\n".toList ∧
    replace_line "ab\n".toList "b\\n".toList "c".toList = Except.ok "ac".toList :=
  ⟨replace_line_spec, by decide, by decide⟩

/-- Witness for C3: the pattern `(\d+)` compiles to an explicit regex with
one group, the template `[\1]` compiles to an explicit item list, and
`replace_line` on a three-match line equals the specification-side global
substitution, which evaluates to the expected text. -/
theorem c3_global_substitution_witness :
    re_compile "(\\d+)".toList = Except.ok
      (RE.seq (RE.grp 1 (RE.seq (RE.seq (RE.cls false [ClsItem.dig])
        (RE.star (RE.cls false [ClsItem.dig]))) RE.eps)) RE.eps, 1) ∧
    parseTmpl 1 ("[\\1]".toList.length + 1) "[\\1]".toList =
      Except.ok [TItem.lit '[', TItem.ref 1, TItem.lit ']'] ∧
    replace_line "a1 b22 c333\n".toList "(\\d+)".toList "[\\1]".toList =
      Except.ok (pySubSpec
        (RE.seq (RE.grp 1 (RE.seq (RE.seq (RE.cls false [ClsItem.dig])
          (RE.star (RE.cls false [ClsItem.dig]))) RE.eps)) RE.eps)
        [TItem.lit '[', TItem.ref 1, TItem.lit ']'] "a1 b22 c333\n".toList) ∧
    pySubSpec
        (RE.seq (RE.grp 1 (RE.seq (RE.seq (RE.cls false [ClsItem.dig])
          (RE.star (RE.cls false [ClsItem.dig]))) RE.eps)) RE.eps)
        [TItem.lit '[', TItem.ref 1, TItem.lit ']'] "a1 b22 c333\n".toList =
      "a[1] b[22] c[333]\n".toList :=
  ⟨by decide, by decide,
    c3_global_substitution.1 "a1 b22 c333\n".toList "(\\d+)".toList "[\\1]".toList
      _ 1 _ (by decide) (by decide), by decide⟩

/-- C4: when a Hint Line's hint fails to parse, the loop keeps the hint
line verbatim in the output and does not consume the following line — the
remaining lines (starting with the very next one) are processed fresh. -/
theorem c4_parse_error_no_consume (line : List Char) (rest acc : List (List Char))
    (hhint : isHintLine line = true) (herr : parse_hint line = Except.error ()) :
    processGo (line :: rest) acc = processGo rest (line :: acc) := by
  simp [processGo, hhint, herr]

/-- Witness for C4 on a hint line missing the `" with: "` delimiter. -/
theorem c4_parse_error_no_consume_witness :
    isHintLine "# cfn-hint: replace: broken\n".toList = true ∧
    parse_hint "# cfn-hint: replace: broken\n".toList = Except.error () ∧
    processGo ["# cfn-hint: replace: broken\n".toList, "bar\n".toList] [] =
      processGo ["bar\n".toList] ["# cfn-hint: replace: broken\n".toList] :=
  ⟨by decide, by decide, c4_parse_error_no_consume _ _ _ (by decide) (by decide)⟩

/-- C5: when the hint parses but `replace_line` fails with the caught
`ValueError` kind (for instance a pattern that does not compile), the loop
keeps the hint line and appends the target line completely unmodified;
nothing is dropped and no exception escapes. -/
theorem c5_compile_error_unmodified (line next : List Char) (rest acc : List (List Char))
    (pat rep : List Char)
    (hhint : isHintLine line = true) (hok : parse_hint line = Except.ok (pat, rep))
    (herr : replace_line next pat rep = Except.error PyExc.valueError) :
    processGo (line :: next :: rest) acc = processGo rest (next :: line :: acc) := by
  simp [processGo, hhint, hok, herr]

/-- Witness for C5 on the unbalanced-group pattern `(`. -/
theorem c5_compile_error_unmodified_witness :
    isHintLine "# cfn-hint: replace: ( with: x\n".toList = true ∧
    parse_hint "# cfn-hint: replace: ( with: x\n".toList =
      Except.ok ("(".toList, "x".toList) ∧
    replace_line "y\n".toList "(".toList "x".toList = Except.error PyExc.valueError ∧
    processGo ["# cfn-hint: replace: ( with: x\n".toList, "y\n".toList, "z\n".toList] [] =
      processGo ["z\n".toList] ["y\n".toList, "# cfn-hint: replace: ( with: x\n".toList] :=
  ⟨by decide, by decide, by decide,
    c5_compile_error_unmodified "# cfn-hint: replace: ( with: x\n".toList "y\n".toList
      ["z\n".toList] [] "(".toList "x".toList (by decide) (by decide) (by decide)⟩

/-- C6 counterexample: a document whose final line is a successfully
parsed Hint Line but whose output differs from the input, because an
earlier hint rewrote its target line — refuting the claim's parenthetical
"the output equals the input" for every such document. -/
theorem c6_hint_at_eof_counterexample :
    (splitlinesKeepends
        "# cfn-hint: replace: a with: b\na\n# cfn-hint: replace: x with: y\n".toList).getLast?
      = some "# cfn-hint: replace: x with: y\n".toList ∧
    isHintLine "# cfn-hint: replace: x with: y\n".toList = true ∧
    parse_hint "# cfn-hint: replace: x with: y\n".toList =
      Except.ok ("x".toList, "y".toList) ∧
    process_content
        "# cfn-hint: replace: a with: b\na\n# cfn-hint: replace: x with: y\n".toList =
      Except.ok
        "# cfn-hint: replace: a with: b\nb\n# cfn-hint: replace: x with: y\n".toList ∧
    "# cfn-hint: replace: a with: b\nb\n# cfn-hint: replace: x with: y\n".toList ≠
      "# cfn-hint: replace: a with: b\na\n# cfn-hint: replace: x with: y\n".toList :=
  ⟨by decide, by decide, by decide, by decide, by decide⟩

/-- C6 (amended): a document whose final line is a Hint Line with a
successfully parsed hint is returned normally with the hint line preserved
and nothing appended for it; the output equals the input provided no other
line of the document is a Hint Line. -/
theorem c6_hint_at_eof (content : List Char) (ls : List (List Char)) (h : List Char)
    (hsplit : splitlinesKeepends content = ls ++ [h])
    (hls : ∀ l ∈ ls, isHintLine l = false)
    (hhint : isHintLine h = true)
    (pr : List Char × List Char) (hok : parse_hint h = Except.ok pr) :
    process_content content = Except.ok content := by
  have h1 : processGo (ls ++ [h]) [] = Except.ok (ls ++ [h]) := by
    rw [processGo_nonhint ls [h] [] hls]
    simp [processGo, hhint, hok]
  have h2 := flatten_splitlines content
  rw [hsplit] at h2
  simp [process_content, hsplit, h1, Except.map, h2]

/-- Witness for C6 (amended) on a two-line document ending in a hint. -/
theorem c6_hint_at_eof_witness :
    splitlinesKeepends "x\n# cfn-hint: replace: a with: b\n".toList =
      ["x\n".toList] ++ ["# cfn-hint: replace: a with: b\n".toList] ∧
    (∀ l ∈ [("x\n".toList : List Char)], isHintLine l = false) ∧
    isHintLine "# cfn-hint: replace: a with: b\n".toList = true ∧
    parse_hint "# cfn-hint: replace: a with: b\n".toList =
      Except.ok ("a".toList, "b".toList) ∧
    process_content "x\n# cfn-hint: replace: a with: b\n".toList =
      Except.ok "x\n# cfn-hint: replace: a with: b\n".toList :=
  ⟨by decide, by decide, by decide, by decide,
    c6_hint_at_eof "x\n# cfn-hint: replace: a with: b\n".toList ["x\n".toList]
      "# cfn-hint: replace: a with: b\n".toList (by decide) (by decide) (by decide)
      ("a".toList, "b".toList) (by decide)⟩

/-- C7 counterexample: a line containing the bare substring
`cfn-hint: replace:` but not `# cfn-hint: replace:` is *not* dispatched to
hint parsing — the document passes through unchanged even though the
hint's substitution would have rewritten the following line. -/
theorem c7_marker_counterexample :
    containsSub "cfn-hint: replace:".toList "cfn-hint: replace: a with: b\n".toList = true ∧
    isHintLine "cfn-hint: replace: a with: b\n".toList = false ∧
    process_content "cfn-hint: replace: a with: b\naaa\n".toList =
      Except.ok "cfn-hint: replace: a with: b\naaa\n".toList ∧
    replace_line "aaa\n".toList "a".toList "b".toList = Except.ok "bbb\n".toList :=
  ⟨by decide, by decide, by decide, by decide⟩

/-- C7 (amended): every line containing the substring
`# cfn-hint: replace:` — at any position, whatever precedes it — is
dispatched by the processing loop to the hint-handling step. -/
theorem c7_hash_marker_dispatch (pre suf : List Char) (rest acc : List (List Char)) :
    processGo ((pre ++ hintMarker ++ suf) :: rest) acc =
      hintStepSpec (pre ++ hintMarker ++ suf) rest acc := by
  have hhint : isHintLine (pre ++ hintMarker ++ suf) = true := by
    have h1 := containsSub_of_mid pre hintMarker suf
    simpa [isHintLine, List.append_assoc] using h1
  simp only [processGo, hhint, if_true, hintStepSpec]

/-- C8: `parse_hint` fails exactly when the line has fewer than 3
colon-delimited parts (under `split(':', 2)`) or the literal delimiter
`" with: "` is absent from the trimmed final part; the two conditions are
stated disjunctively, and a sub-3-part split indeed forces failure because
the delimiter's own colon cannot survive such a split. -/
theorem c8_parse_failure_condition (line : List Char) :
    parse_hint line = Except.error () ↔
      ((pySplitMax ':' 2 line).length < 3 ∨
       containsSub wDelim (pyStrip (lastColonChunk line)) = false) := by
  have hkey : parse_hint line = Except.error () ↔
      containsSub wDelim (pyStrip (lastColonChunk line)) = false := by
    rcases hs : splitOnceSub wDelim (pyStrip (lastColonChunk line)) with _ | v <;>
      simp [parse_hint, containsSub, hs]
  constructor
  · intro h
    exact Or.inr (hkey.mp h)
  · intro h
    rcases h with hlen | hcon
    · apply hkey.mpr
      by_contra hne
      have hcon : containsSub wDelim (pyStrip (lastColonChunk line)) = true := by
        revert hne
        cases containsSub wDelim (pyStrip (lastColonChunk line)) <;> simp
      have hmem : ':' ∈ pyStrip (lastColonChunk line) :=
        mem_of_containsSub _ _ ':' hcon (by decide)
      have hmem2 : ':' ∈ lastColonChunk line := mem_pyStrip ':' _ hmem
      rcases pySplitMax_full_or_clean ':' 2 line with hfull | hclean
      · omega
      · exact hclean hmem2
    · exact hkey.mpr hcon

/-- C9 (amended): whenever the processing loop returns normally it emits
exactly one output line element per input line element, in every control
path; the *logical* line count of the joined document can nevertheless
change when a substitution adds or removes line-break characters inside
the target line (see the counterexample). -/
theorem c9_element_count (lines acc out : List (List Char))
    (h : processGo lines acc = Except.ok out) :
    out.length = acc.length + lines.length := by
  rcases processGo_spec lines acc with ⟨out2, h1, h2⟩ | h1 | h1 <;> rw [h] at h1 <;> simp_all

/-- Witness for C9 (amended) on a two-line document whose hint rewrites
its target: two line elements in, two out. -/
theorem c9_element_count_witness :
    processGo ["# cfn-hint: replace: a with: b\n".toList, "a\n".toList] [] =
      Except.ok ["# cfn-hint: replace: a with: b\n".toList, "b\n".toList] ∧
    (["# cfn-hint: replace: a with: b\n".toList, "b\n".toList] : List (List Char)).length
      = List.length ([] : List (List Char)) + 2 :=
  ⟨by decide,
    c9_element_count ["# cfn-hint: replace: a with: b\n".toList, "a\n".toList] []
      ["# cfn-hint: replace: a with: b\n".toList, "b\n".toList] (by decide)⟩

/-- C9 counterexample: a hint whose pattern `\n` matches the target
line's terminator merges it with the following line — the input has 3
logical lines, the output only 2, refuting "line count is unchanged in all
cases". -/
theorem c9_line_count_counterexample :
    process_content "# cfn-hint: replace: \\n with: X\na\nb\n".toList =
      Except.ok "# cfn-hint: replace: \\n with: X\naXb\n".toList ∧
    (splitlinesKeepends "# cfn-hint: replace: \\n with: X\na\nb\n".toList).length = 3 ∧
    (splitlinesKeepends "# cfn-hint: replace: \\n with: X\naXb\n".toList).length = 2 :=
  ⟨by decide, by decide, by decide⟩

/-- C10: a hint whose pattern `foo` compiles but whose replacement `\9`
references a nonexistent capture group makes `replace_line` fail with the
same recoverable error kind (`re.error`, re-raised as `ValueError`) as a
compile failure (second and third conjuncts), and `process_content`
recovers identically: hint line preserved, target line appended
unmodified, no exception escaping. -/
theorem c10_runtime_error_recovered :
    (re_compile "foo".toList).isOk = true ∧
    replace_line "foo bar\n".toList "foo".toList "\\9".toList =
      Except.error PyExc.valueError ∧
    replace_line "foo bar\n".toList "(".toList "x".toList =
      Except.error PyExc.valueError ∧
    process_content "# cfn-hint: replace: foo with: \\9\nfoo bar\n".toList =
      Except.ok "# cfn-hint: replace: foo with: \\9\nfoo bar\n".toList :=
  ⟨by decide, by decide, by decide, by decide⟩

end CfnHint
